import Mathlib

/-!
Verification of the Ximalaya streaming header descrambler
(src/decryption/ximalaya.rs) against its design specification.

Bytes are modelled as natural numbers (every value of interest is below
256, and xor never overflows), byte buffers as lists of naturals, and the
u16 scramble-table entries as naturals as well.  The decryptor state is a
structure mirroring the Rust struct; the `write` loop becomes a
well-founded recursive function on the unconsumed chunk remainder.
-/

namespace Parakeet

/-- Size of the scrambled header, from ximalaya.rs: XMLY_SCRAMBLE_SIZE. -/
def XMLY_SCRAMBLE_SIZE : Nat := 1024

/-- X2M content key size (4 bytes), from ximalaya.rs. -/
def X2M_CONTENT_KEY_SIZE : Nat := 4

/-- X3M content key size (32 bytes), from ximalaya.rs. -/
def X3M_CONTENT_KEY_SIZE : Nat := 32

/-- Modelled from the spec: the generic failure channel of `write`
(the `DecryptError` type lives outside src/; the spec says it exists
only for interface symmetry and carries no structure we rely on). -/
inductive DecryptError where
| failure : DecryptError
deriving DecidableEq

/-- Modelled from the spec: the shared StreamBuffer state
(`BaseDecryptorData` lives outside src/).  `buf_in` is `pending_input`,
`buf_out` is `output`, `offset` is `consumed_offset`. -/
structure BaseDecryptorData where
buf_in : List Nat
buf_out : List Nat
offset : Nat
deriving DecidableEq

/-- Modelled from the spec: a fresh StreamBuffer is empty with zero
consumed offset. -/
def BaseDecryptorData.new : BaseDecryptorData :=
{ buf_in := [], buf_out := [], offset := 0 }

/-- Modelled from the spec: `try_reach_threshold` alias
`read_until_offset` (outside src/).  Given the next chunk `p`, it
computes how many more bytes are needed to bring `pending_input` up to
`threshold`.  If `p` is insufficient it is fully accumulated and the
result is "not yet ready" (`false`) with an empty remainder; otherwise
only the bytes needed to reach exactly `threshold` are consumed and the
untouched rest of `p` is returned together with "ready" (`true`). -/
def BaseDecryptorData.read_until_offset (d : BaseDecryptorData) (p : List Nat)
    (threshold : Nat) : BaseDecryptorData × List Nat × Bool :=
if p.length < threshold - d.buf_in.length then
  ({ d with buf_in := d.buf_in ++ p }, ([], false))
else
  ({ d with buf_in := d.buf_in ++ p.take (threshold - d.buf_in.length) },
   (p.drop (threshold - d.buf_in.length), true))

/-- Modelled from the spec: `consume_bytes n` (outside src/) discards the
first `n` bytes of `pending_input` and advances `consumed_offset` by `n`
(spec 4.2: "discard the first 1024 bytes of pending_input via
drop_front(1024), advance the offset by 1024"). -/
def BaseDecryptorData.consume_bytes (d : BaseDecryptorData) (n : Nat) :
    BaseDecryptorData :=
{ d with buf_in := d.buf_in.drop n, offset := d.offset + n }

/-- Modelled from the spec: `get_mod_n` from utils::array_ext (outside
src/): key indexing wraps modulo the key length. -/
def get_mod_n (key : List Nat) (i : Nat) : Nat :=
key.getD (i % key.length) 0

/-- The decryptor phase, from ximalaya.rs: `enum State`. -/
inductive State where
| DecryptHeader : State
| PassThrough : State
deriving DecidableEq

/-- The Ximalaya decryptor state, from ximalaya.rs: `struct Ximalaya`.
The compile-time key size (4 or 32) becomes a hypothesis on
`key.length` where a claim needs it. -/
structure Ximalaya where
data : BaseDecryptorData
state : State
key : List Nat
scramble_table : List Nat
deriving DecidableEq

/-- Constructor, from ximalaya.rs: `Ximalaya::new`. -/
def Ximalaya.new (key scramble_table : List Nat) : Ximalaya :=
{ data := BaseDecryptorData.new, key := key,
  state := State.DecryptHeader, scramble_table := scramble_table }

/-- The body of the descrambling loop of `do_header_decryption`:
output byte `i` is `buf_in[scramble_table[i]] XOR key[i mod key.len]`.
Out-of-range reads are totalised with default 0 here; the checked
variant `do_header_decryption_checked` below models the partiality. -/
def descrambledHeader (key scramble_table buf_in : List Nat) : List Nat :=
(List.range XMLY_SCRAMBLE_SIZE).map fun i =>
  (buf_in.getD (scramble_table.getD i 0) 0) ^^^ get_mod_n key i

/-- From ximalaya.rs: `Ximalaya::do_header_decryption`.  Builds the
1024-byte descrambled block, appends it to `buf_out`, and consumes the
1024 header bytes from `buf_in` (advancing the offset). -/
def do_header_decryption (x : Ximalaya) : Ximalaya :=
let output := descrambledHeader x.key x.scramble_table x.data.buf_in
let d := { x.data with buf_out := x.data.buf_out ++ output }
{ x with data := d.consume_bytes XMLY_SCRAMBLE_SIZE }

/-- Rank used to justify termination of the `write` loop: the
pass-through phase never iterates again. -/
def stateRank : State → Nat
| State.DecryptHeader => 1
| State.PassThrough => 0

/-- The unconsumed remainder returned by `read_until_offset` is a
suffix of the chunk, so never longer than it. -/
theorem read_rest_length_le (d : BaseDecryptorData) (p : List Nat) (t : Nat) :
    (d.read_until_offset p t).2.1.length ≤ p.length := by
  unfold BaseDecryptorData.read_until_offset
  split <;> simp

/-- When `read_until_offset` signals "not yet ready", the chunk was
fully accumulated: the remainder is empty. -/
theorem read_not_ready_rest (d : BaseDecryptorData) (p : List Nat) (t : Nat)
    (h : (d.read_until_offset p t).2.2 = false) :
    (d.read_until_offset p t).2.1 = [] := by
  unfold BaseDecryptorData.read_until_offset at h ⊢
  split at h <;> simp_all

/-- From ximalaya.rs: the `while !p.is_empty()` loop inside
`Decryptor::write`.  In `DecryptHeader` phase it feeds the remainder to
`read_until_offset`; on "ready" it runs the header decryption, flips the
phase, and keeps looping on the untouched rest of the chunk.  In
`PassThrough` phase it appends the whole remainder to `buf_out`,
advances the offset, and breaks. -/
def writeLoop (x : Ximalaya) (p : List Nat) : Ximalaya :=
if hp : p = [] then x
else
  match hs : x.state with
  | State.PassThrough =>
    { x with data := { x.data with
        buf_out := x.data.buf_out ++ p,
        offset := x.data.offset + p.length } }
  | State.DecryptHeader =>
    match hr : x.data.read_until_offset p XMLY_SCRAMBLE_SIZE with
    | (d, rest, ready) =>
      if ready then
        writeLoop
          { do_header_decryption { x with data := d } with
              state := State.PassThrough } rest
      else
        writeLoop { x with data := d } rest
termination_by p.length + stateRank x.state
decreasing_by
· have h1 : rest.length ≤ p.length := by
    have := read_rest_length_le x.data p XMLY_SCRAMBLE_SIZE
    rw [hr] at this
    exact this
  simp [stateRank, hs]
  omega
· have h2 : rest = [] := by
    have := read_not_ready_rest x.data p XMLY_SCRAMBLE_SIZE (by rw [hr]; simp_all)
    rw [hr] at this
    exact this
  have h3 : 0 < p.length := List.length_pos.mpr hp
  simp [stateRank, hs, h2]
  omega

/-- From ximalaya.rs: `Decryptor::write` runs the loop and returns Ok. -/
def write (x : Ximalaya) (p : List Nat) : Except DecryptError Ximalaya :=
Except.ok (writeLoop x p)

/-- Feeding a sequence of chunks through successive `write` calls. -/
def writeMany (x : Ximalaya) (cs : List (List Nat)) : Ximalaya :=
cs.foldl writeLoop x

/-- The closed form of the decryptor state after consuming the total
input stream `inp` from a fresh instance: below the threshold the
stream is merely buffered; at or above it, the descrambled header
followed by the verbatim remainder sits in the output. -/
def refState (key table inp : List Nat) : Ximalaya :=
if inp.length < XMLY_SCRAMBLE_SIZE then
  { data := { buf_in := inp, buf_out := [], offset := 0 },
    state := State.DecryptHeader, key := key, scramble_table := table }
else
  { data :=
      { buf_in := [],
        buf_out := descrambledHeader key table (inp.take XMLY_SCRAMBLE_SIZE)
          ++ inp.drop XMLY_SCRAMBLE_SIZE,
        offset := inp.length },
    state := State.PassThrough, key := key, scramble_table := table }

theorem writeLoop_nil (x : Ximalaya) : writeLoop x [] = x := by
  unfold writeLoop
  simp

theorem writeLoop_pass (x : Ximalaya) (p : List Nat)
    (hs : x.state = State.PassThrough) (hp : p ≠ []) :
    writeLoop x p =
      { x with data := { x.data with
          buf_out := x.data.buf_out ++ p,
          offset := x.data.offset + p.length } } := by
  rw [writeLoop.eq_def, dif_neg hp]
  split
  · rfl
  · simp_all

theorem writeLoop_refState_pass (key table inp p : List Nat)
    (h : XMLY_SCRAMBLE_SIZE ≤ inp.length) :
    writeLoop (refState key table inp) p = refState key table (inp ++ p) := by
  by_cases hp : p = []
  · simp [hp, writeLoop_nil]
  · have hnot : ¬ inp.length < XMLY_SCRAMBLE_SIZE := Nat.not_lt.mpr h
    have hnot2 : ¬ (inp ++ p).length < XMLY_SCRAMBLE_SIZE := by
      simp only [List.length_append]
      omega
    rw [writeLoop_pass _ _ (by simp [refState, hnot]) hp]
    simp only [refState, if_neg hnot, if_neg hnot2]
    simp [List.take_append_of_le_length h, List.drop_append_of_le_length h,
      List.append_assoc]

theorem writeLoop_refState (key table inp p : List Nat) :
    writeLoop (refState key table inp) p = refState key table (inp ++ p) := by
  by_cases h : inp.length < XMLY_SCRAMBLE_SIZE
  · by_cases hp : p = []
    · simp [hp, writeLoop_nil]
    · rw [writeLoop.eq_def, dif_neg hp]
      split
      · next hq =>
        exfalso
        simp [refState, if_pos h] at hq
      · next hq =>
        simp only [refState, if_pos h]
        by_cases hlt : p.length < XMLY_SCRAMBLE_SIZE - inp.length
        · have hshort : (inp ++ p).length < XMLY_SCRAMBLE_SIZE := by
            simp only [List.length_append]
            omega
          have hshort2 : inp.length + p.length < XMLY_SCRAMBLE_SIZE := by
            simpa using hshort
          simp only [BaseDecryptorData.read_until_offset, if_pos hlt]
          simp only [Bool.false_eq_true, if_false]
          rw [writeLoop_nil]
          simp [refState, hshort2]
        · have hneed : XMLY_SCRAMBLE_SIZE - inp.length ≤ p.length := Nat.not_lt.mp hlt
          have hlen : (inp ++ p.take (XMLY_SCRAMBLE_SIZE - inp.length)).length
              = XMLY_SCRAMBLE_SIZE := by
            simp only [List.length_append, List.length_take]
            omega
          simp only [BaseDecryptorData.read_until_offset, if_neg hlt]
          simp only [if_true]
          have hmid :
              ({ do_header_decryption
                  { data :=
                      { buf_in := inp ++ p.take (XMLY_SCRAMBLE_SIZE - inp.length),
                        buf_out := ([] : List Nat), offset := 0 },
                    state := State.DecryptHeader, key := key,
                    scramble_table := table } with
                  state := State.PassThrough } : Ximalaya)
              = refState key table (inp ++ p.take (XMLY_SCRAMBLE_SIZE - inp.length)) := by
            simp [do_header_decryption, BaseDecryptorData.consume_bytes, refState,
              hlen, List.drop_eq_nil_of_le (le_of_eq hlen),
              List.take_of_length_le (le_of_eq hlen)]
          rw [hmid]
          rw [writeLoop_refState_pass key table _ _ (le_of_eq hlen.symm)]
          rw [List.append_assoc, List.take_append_drop]
          simp only [refState]
  · exact writeLoop_refState_pass key table inp p (Nat.not_lt.mp h)

theorem writeMany_refState (key table : List Nat) (cs : List (List Nat))
    (inp : List Nat) :
    writeMany (refState key table inp) cs = refState key table (inp ++ cs.flatten) := by
  induction cs generalizing inp with
  | nil => simp [writeMany]
  | cons c cs ih =>
    show writeMany (writeLoop (refState key table inp) c) cs = _
    rw [writeLoop_refState, ih]
    simp [List.append_assoc]

theorem new_eq_refState (key table : List Nat) :
    Ximalaya.new key table = refState key table [] := by
  simp [Ximalaya.new, refState, BaseDecryptorData.new, XMLY_SCRAMBLE_SIZE]

/-- Master characterisation: a fresh decryptor fed any chunk sequence
ends in the closed-form state determined by the concatenated stream. -/
theorem writeMany_new (key table : List Nat) (cs : List (List Nat)) :
    writeMany (Ximalaya.new key table) cs = refState key table cs.flatten := by
  rw [new_eq_refState, writeMany_refState]
  simp

theorem do_header_decryption_buf_out (x : Ximalaya) :
    (do_header_decryption x).data.buf_out
      = x.data.buf_out ++ (List.range XMLY_SCRAMBLE_SIZE).map
          (fun i => x.data.buf_in.getD (x.scramble_table.getD i 0) 0
            ^^^ x.key.getD (i % x.key.length) 0) := by
  simp [do_header_decryption, descrambledHeader, BaseDecryptorData.consume_bytes,
    get_mod_n]

/-- C1: when the buffered header first reaches 1024 bytes, the
descrambling transform appends to the output, in order of i, exactly
the 1024 bytes `pending_input[permutation[i]] XOR key[i mod key.length]`
for i in [0, 1024), the key length being 4 (X2M) or 32 (X3M). -/
theorem header_transform_formula (x : Ximalaya)
    (hkey : x.key.length = X2M_CONTENT_KEY_SIZE
      ∨ x.key.length = X3M_CONTENT_KEY_SIZE) :
    (do_header_decryption x).data.buf_out
      = x.data.buf_out ++ (List.range XMLY_SCRAMBLE_SIZE).map
          (fun i => x.data.buf_in.getD (x.scramble_table.getD i 0) 0
            ^^^ x.key.getD (i % x.key.length) 0) ∧
    ∀ i, i < XMLY_SCRAMBLE_SIZE →
      (do_header_decryption x).data.buf_out.getD (x.data.buf_out.length + i) 0
        = x.data.buf_in.getD (x.scramble_table.getD i 0) 0
          ^^^ x.key.getD (i % x.key.length) 0 := by
  refine ⟨do_header_decryption_buf_out x, ?_⟩
  intro i hi
  rw [do_header_decryption_buf_out x]
  rw [List.getD_append_right _ _ _ _ (Nat.le_add_right _ _)]
  simp only [Nat.add_sub_cancel_left]
  have hlen : i < ((List.range XMLY_SCRAMBLE_SIZE).map
      (fun i => x.data.buf_in.getD (x.scramble_table.getD i 0) 0
        ^^^ x.key.getD (i % x.key.length) 0)).length := by
    simpa using hi
  rw [List.getD_eq_getElem _ _ hlen]
  simp [hi]

/-- A concrete decryptor state used by witnesses: 4-byte key [1,2,3,4],
identity permutation, all-sevens 1024-byte pending header. -/
def witnessHeaderState : Ximalaya :=
{ data := { buf_in := List.replicate 1024 7, buf_out := [], offset := 0 },
  state := State.DecryptHeader, key := [1, 2, 3, 4],
  scramble_table := List.range 1024 }

/-- Witness for C1 at the concrete decryptor state above. -/
theorem header_transform_formula_witness :
    (witnessHeaderState.key.length = X2M_CONTENT_KEY_SIZE
      ∨ witnessHeaderState.key.length = X3M_CONTENT_KEY_SIZE) ∧
    ∀ i, i < XMLY_SCRAMBLE_SIZE →
      (do_header_decryption witnessHeaderState).data.buf_out.getD
          (witnessHeaderState.data.buf_out.length + i) 0
        = witnessHeaderState.data.buf_in.getD
            (witnessHeaderState.scramble_table.getD i 0) 0
          ^^^ witnessHeaderState.key.getD (i % witnessHeaderState.key.length) 0 :=
  ⟨Or.inl (by decide),
    (header_transform_formula witnessHeaderState (Or.inl (by decide))).2⟩

theorem flatten_map_singleton (l : List Nat) :
    (l.map (fun b => [b])).flatten = l := by
  induction l with
  | nil => rfl
  | cons a t ih => simp [ih]

/-- C2: chunking invariance: for a fixed key and permutation table, the
final output depends only on the concatenated input stream, not on how
it is split across write calls. -/
theorem chunking_invariance (key table : List Nat) (cs1 cs2 : List (List Nat))
    (h : cs1.flatten = cs2.flatten) :
    (writeMany (Ximalaya.new key table) cs1).data.buf_out
      = (writeMany (Ximalaya.new key table) cs2).data.buf_out := by
  rw [writeMany_new, writeMany_new, h]

/-- Witness for C2: a 2048-byte input fed as one write call produces the
same output as 2048 write calls of one byte each. -/
theorem chunking_invariance_witness :
    ([List.replicate 2048 0] : List (List Nat)).flatten
        = ((List.replicate 2048 0).map (fun b => [b])).flatten ∧
    (writeMany (Ximalaya.new [1, 2, 3, 4] (List.range 1024))
        [List.replicate 2048 0]).data.buf_out
      = (writeMany (Ximalaya.new [1, 2, 3, 4] (List.range 1024))
          ((List.replicate 2048 0).map (fun b => [b]))).data.buf_out :=
  ⟨by rw [flatten_map_singleton]
      simp only [List.flatten_cons, List.flatten_nil, List.append_nil],
    chunking_invariance _ _ _ _
      (by rw [flatten_map_singleton]
          simp only [List.flatten_cons, List.flatten_nil, List.append_nil])⟩

theorem descrambledHeader_length (key table buf : List Nat) :
    (descrambledHeader key table buf).length = XMLY_SCRAMBLE_SIZE := by
  simp [descrambledHeader]

/-- C3: pass-through correctness: when the total stream is longer than
1024 bytes, every byte at position 1024 and beyond appears unmodified
and in order in the output, immediately after the 1024-byte transformed
header block. -/
theorem pass_through_correct (key table : List Nat) (cs : List (List Nat))
    (h : XMLY_SCRAMBLE_SIZE < cs.flatten.length) :
    (writeMany (Ximalaya.new key table) cs).data.buf_out.drop XMLY_SCRAMBLE_SIZE
        = cs.flatten.drop XMLY_SCRAMBLE_SIZE ∧
    (writeMany (Ximalaya.new key table) cs).data.buf_out.length
        = cs.flatten.length ∧
    (writeMany (Ximalaya.new key table) cs).data.buf_out.take XMLY_SCRAMBLE_SIZE
        = descrambledHeader key table (cs.flatten.take XMLY_SCRAMBLE_SIZE) := by
  rw [writeMany_new]
  have hd := descrambledHeader_length key table (cs.flatten.take XMLY_SCRAMBLE_SIZE)
  simp only [refState, if_neg (Nat.not_lt.mpr (le_of_lt h))]
  refine ⟨?_, ?_, ?_⟩
  · rw [List.drop_left' hd]
  · simp only [List.length_append, List.length_drop, hd]
    omega
  · rw [List.take_left' hd]

set_option maxRecDepth 20000 in
/-- Witness for C3: a 1025-byte stream in one chunk. -/
theorem pass_through_correct_witness :
    XMLY_SCRAMBLE_SIZE < ([List.replicate 1025 3] : List (List Nat)).flatten.length ∧
    (writeMany (Ximalaya.new [1, 2, 3, 4] (List.range 1024))
        [List.replicate 1025 3]).data.buf_out.drop XMLY_SCRAMBLE_SIZE
      = ([List.replicate 1025 3] : List (List Nat)).flatten.drop XMLY_SCRAMBLE_SIZE :=
  ⟨by decide,
    (pass_through_correct [1, 2, 3, 4] (List.range 1024)
      [List.replicate 1025 3] (by decide)).1⟩

/-- C4: truncated stream: when the total input over all write calls is
shorter than 1024 bytes the output stays empty, the decoder stays in
the header-collecting phase, and everything remains buffered (so the
descrambling transform never ran). -/
theorem truncated_stream (key table : List Nat) (cs : List (List Nat))
    (h : cs.flatten.length < XMLY_SCRAMBLE_SIZE) :
    (writeMany (Ximalaya.new key table) cs).data.buf_out = [] ∧
    (writeMany (Ximalaya.new key table) cs).state = State.DecryptHeader ∧
    (writeMany (Ximalaya.new key table) cs).data.buf_in = cs.flatten := by
  rw [writeMany_new]
  simp only [refState, if_pos h]
  simp

set_option maxRecDepth 20000 in
/-- Witness for C4: 1000 bytes delivered in two write calls. -/
theorem truncated_stream_witness :
    ([List.replicate 500 1, List.replicate 500 2] : List (List Nat)).flatten.length
        < XMLY_SCRAMBLE_SIZE ∧
    (writeMany (Ximalaya.new [1, 2, 3, 4] (List.range 1024))
        [List.replicate 500 1, List.replicate 500 2]).data.buf_out = [] :=
  ⟨by decide,
    (truncated_stream [1, 2, 3, 4] (List.range 1024)
      [List.replicate 500 1, List.replicate 500 2] (by decide)).1⟩

/-- C6: write never fails: on any instance constructed with a
well-formed key (4 or 32 bytes) and 1024-entry table, after any chunk
history, `write` returns the success value on every chunk, empty
chunks included. -/
theorem write_never_fails (key table : List Nat)
    (hkey : key.length = X2M_CONTENT_KEY_SIZE
      ∨ key.length = X3M_CONTENT_KEY_SIZE)
    (htable : table.length = XMLY_SCRAMBLE_SIZE)
    (cs : List (List Nat)) (chunk : List Nat) :
    ∃ y, write (writeMany (Ximalaya.new key table) cs) chunk = Except.ok y :=
  ⟨writeLoop (writeMany (Ximalaya.new key table) cs) chunk, rfl⟩

set_option maxRecDepth 20000 in
/-- Witness for C6 on a fresh X2M instance fed an empty chunk. -/
theorem write_never_fails_witness :
    (([1, 2, 3, 4] : List Nat).length = X2M_CONTENT_KEY_SIZE
      ∨ ([1, 2, 3, 4] : List Nat).length = X3M_CONTENT_KEY_SIZE) ∧
    (List.range 1024).length = XMLY_SCRAMBLE_SIZE ∧
    ∃ y, write (writeMany (Ximalaya.new [1, 2, 3, 4] (List.range 1024)) [[]]) []
      = Except.ok y :=
  ⟨Or.inl (by decide), by decide,
    write_never_fails [1, 2, 3, 4] (List.range 1024) (Or.inl (by decide))
      (by decide) [[]] []⟩

/-- C7: bounded pending buffer: between write calls the pending input
always holds strictly fewer than 1024 bytes; and whenever
`read_until_offset` signals "ready" from such a state, the pending
buffer transiently holds exactly 1024 bytes, which the
`consume_bytes` in the header decryption immediately clears. -/
theorem pending_buffer_bounded (key table : List Nat) (cs : List (List Nat)) :
    (writeMany (Ximalaya.new key table) cs).data.buf_in.length
        < XMLY_SCRAMBLE_SIZE ∧
    ∀ d : BaseDecryptorData, ∀ q : List Nat,
      d.buf_in.length < XMLY_SCRAMBLE_SIZE →
      (d.read_until_offset q XMLY_SCRAMBLE_SIZE).2.2 = true →
      (d.read_until_offset q XMLY_SCRAMBLE_SIZE).1.buf_in.length
          = XMLY_SCRAMBLE_SIZE ∧
      ((d.read_until_offset q XMLY_SCRAMBLE_SIZE).1.consume_bytes
          XMLY_SCRAMBLE_SIZE).buf_in = [] := by
  constructor
  · rw [writeMany_new]
    by_cases h : cs.flatten.length < XMLY_SCRAMBLE_SIZE
    · simp only [refState, if_pos h]
      exact h
    · simp only [refState, if_neg h]
      decide
  · intro d q hlt hready
    unfold BaseDecryptorData.read_until_offset at hready ⊢
    by_cases hq : q.length < XMLY_SCRAMBLE_SIZE - d.buf_in.length
    · simp [hq] at hready
    · have hfull : (d.buf_in
          ++ q.take (XMLY_SCRAMBLE_SIZE - d.buf_in.length)).length
          = XMLY_SCRAMBLE_SIZE := by
        simp only [List.length_append, List.length_take]
        omega
      refine ⟨by simp [hq, hfull], ?_⟩
      simp only [if_neg hq, BaseDecryptorData.consume_bytes]
      exact List.drop_eq_nil_of_le (le_of_eq hfull)

set_option maxRecDepth 20000 in
/-- Witness for C7's conditional part at a concrete buffer state. -/
theorem pending_buffer_bounded_witness :
    ({ buf_in := List.replicate 1000 1, buf_out := [],
       offset := 0 } : BaseDecryptorData).buf_in.length < XMLY_SCRAMBLE_SIZE ∧
    (({ buf_in := List.replicate 1000 1, buf_out := [],
        offset := 0 } : BaseDecryptorData).read_until_offset
        (List.replicate 100 2) XMLY_SCRAMBLE_SIZE).1.buf_in.length
      = XMLY_SCRAMBLE_SIZE :=
  ⟨by decide,
    ((pending_buffer_bounded [1, 2, 3, 4] (List.range 1024) []).2
      { buf_in := List.replicate 1000 1, buf_out := [], offset := 0 }
      (List.replicate 100 2) (by decide) (by decide)).1⟩

theorem read_offset_eq (d : BaseDecryptorData) (p : List Nat) (t : Nat) :
    (d.read_until_offset p t).1.offset = d.offset := by
  unfold BaseDecryptorData.read_until_offset
  split <;> rfl

theorem writeLoop_header_ready (x : Ximalaya) (p : List Nat)
    (hs : x.state = State.DecryptHeader) (hp : p ≠ [])
    (hr : (x.data.read_until_offset p XMLY_SCRAMBLE_SIZE).2.2 = true) :
    writeLoop x p = writeLoop
      { do_header_decryption
          { x with data := (x.data.read_until_offset p XMLY_SCRAMBLE_SIZE).1 } with
        state := State.PassThrough }
      (x.data.read_until_offset p XMLY_SCRAMBLE_SIZE).2.1 := by
  rw [writeLoop.eq_def, dif_neg hp]
  split
  · next hq => rw [hs] at hq; simp at hq
  · next hq =>
    split
    next d rest ready heq =>
      rw [heq] at hr
      rw [if_pos hr, heq]

theorem writeLoop_header_not_ready (x : Ximalaya) (p : List Nat)
    (hs : x.state = State.DecryptHeader) (hp : p ≠ [])
    (hr : (x.data.read_until_offset p XMLY_SCRAMBLE_SIZE).2.2 = false) :
    writeLoop x p
      = { x with data := (x.data.read_until_offset p XMLY_SCRAMBLE_SIZE).1 } := by
  rw [writeLoop.eq_def, dif_neg hp]
  split
  · next hq => rw [hs] at hq; simp at hq
  · next hq =>
    split
    next d rest ready heq =>
      have hrest := read_not_ready_rest x.data p XMLY_SCRAMBLE_SIZE hr
      rw [heq] at hr hrest
      rw [if_neg (by simp only [Bool.not_eq_true]; exact hr)]
      rw [show rest = (d, (rest, ready)).2.1 from rfl, hrest, writeLoop_nil, heq]

theorem writeLoop_offset_le (x : Ximalaya) (p : List Nat) :
    x.data.offset ≤ (writeLoop x p).data.offset := by
  by_cases hp : p = []
  · rw [hp, writeLoop_nil]
  · cases hs : x.state with
    | PassThrough =>
      rw [writeLoop_pass x p hs hp]
      exact Nat.le_add_right _ _
    | DecryptHeader =>
      by_cases hr : (x.data.read_until_offset p XMLY_SCRAMBLE_SIZE).2.2 = true
      · rw [writeLoop_header_ready x p hs hp hr]
        set y : Ximalaya :=
          { do_header_decryption
              { x with data := (x.data.read_until_offset p XMLY_SCRAMBLE_SIZE).1 } with
            state := State.PassThrough } with hy
        have h1 : x.data.offset ≤ y.data.offset := by
          rw [hy]
          simp only [do_header_decryption, BaseDecryptorData.consume_bytes]
          rw [read_offset_eq]
          exact Nat.le_add_right _ _
        have h2 : y.data.offset
            ≤ (writeLoop y (x.data.read_until_offset p XMLY_SCRAMBLE_SIZE).2.1).data.offset := by
          by_cases hq : (x.data.read_until_offset p XMLY_SCRAMBLE_SIZE).2.1 = []
          · rw [hq, writeLoop_nil]
          · rw [writeLoop_pass y _ rfl hq]
            exact Nat.le_add_right _ _
        exact le_trans h1 h2
      · rw [writeLoop_header_not_ready x p hs hp (by simpa using hr)]
        rw [read_offset_eq]

/-- C8: monotonic offset: across any write call the consumed offset
never decreases, and on any reachable state it counts exactly the
input bytes that have passed through the decoder (zero while the
header is still being collected, the whole stream length after). -/
theorem consumed_offset_monotone :
    (∀ x : Ximalaya, ∀ p : List Nat,
      x.data.offset ≤ (writeLoop x p).data.offset) ∧
    (∀ key table : List Nat, ∀ cs : List (List Nat),
      (writeMany (Ximalaya.new key table) cs).data.offset
        = if cs.flatten.length < XMLY_SCRAMBLE_SIZE then 0
          else cs.flatten.length) := by
  refine ⟨writeLoop_offset_le, ?_⟩
  intro key table cs
  rw [writeMany_new]
  by_cases h : cs.flatten.length < XMLY_SCRAMBLE_SIZE
  · simp only [refState, if_pos h]
  · simp only [refState, if_neg h]

/-- Instrumented version of the `write` loop that additionally counts
how many times the descrambling transform `do_header_decryption` runs.
Its first component coincides with `writeLoop` (proved below). -/
def writeLoopCnt (x : Ximalaya) (p : List Nat) : Ximalaya × Nat :=
if hp : p = [] then (x, 0)
else
  match hs : x.state with
  | State.PassThrough =>
    ({ x with data := { x.data with
        buf_out := x.data.buf_out ++ p,
        offset := x.data.offset + p.length } }, 0)
  | State.DecryptHeader =>
    match hr : x.data.read_until_offset p XMLY_SCRAMBLE_SIZE with
    | (d, rest, ready) =>
      if ready then
        let z := writeLoopCnt
          { do_header_decryption { x with data := d } with
              state := State.PassThrough } rest
        (z.1, z.2 + 1)
      else
        writeLoopCnt { x with data := d } rest
termination_by p.length + stateRank x.state
decreasing_by
· have h1 : rest.length ≤ p.length := by
    have := read_rest_length_le x.data p XMLY_SCRAMBLE_SIZE
    rw [hr] at this
    exact this
  simp [stateRank, hs]
  omega
· have h2 : rest = [] := by
    have := read_not_ready_rest x.data p XMLY_SCRAMBLE_SIZE (by rw [hr]; simp_all)
    rw [hr] at this
    exact this
  have h3 : 0 < p.length := List.length_pos.mpr hp
  simp [stateRank, hs, h2]
  omega

/-- Accumulated transform count over a sequence of write calls. -/
def writeManyCnt (x : Ximalaya) (cs : List (List Nat)) : Ximalaya × Nat :=
cs.foldl (fun acc c => ((writeLoopCnt acc.1 c).1, acc.2 + (writeLoopCnt acc.1 c).2))
  (x, 0)

theorem writeLoopCnt_nil (x : Ximalaya) : writeLoopCnt x [] = (x, 0) := by
  unfold writeLoopCnt
  simp

theorem writeLoopCnt_pass (x : Ximalaya) (p : List Nat)
    (hs : x.state = State.PassThrough) (hp : p ≠ []) :
    writeLoopCnt x p =
      ({ x with data := { x.data with
          buf_out := x.data.buf_out ++ p,
          offset := x.data.offset + p.length } }, 0) := by
  rw [writeLoopCnt.eq_def, dif_neg hp]
  split
  · rfl
  · next hq => rw [hs] at hq; simp at hq

theorem writeLoopCnt_header_ready (x : Ximalaya) (p : List Nat)
    (hs : x.state = State.DecryptHeader) (hp : p ≠ [])
    (hr : (x.data.read_until_offset p XMLY_SCRAMBLE_SIZE).2.2 = true) :
    writeLoopCnt x p =
      ((writeLoopCnt
          { do_header_decryption
              { x with data := (x.data.read_until_offset p XMLY_SCRAMBLE_SIZE).1 } with
            state := State.PassThrough }
          (x.data.read_until_offset p XMLY_SCRAMBLE_SIZE).2.1).1,
       (writeLoopCnt
          { do_header_decryption
              { x with data := (x.data.read_until_offset p XMLY_SCRAMBLE_SIZE).1 } with
            state := State.PassThrough }
          (x.data.read_until_offset p XMLY_SCRAMBLE_SIZE).2.1).2 + 1) := by
  rw [writeLoopCnt.eq_def, dif_neg hp]
  split
  · next hq => rw [hs] at hq; simp at hq
  · next hq =>
    split
    next d rest ready heq =>
      rw [heq] at hr
      rw [if_pos hr, heq]

theorem writeLoopCnt_header_not_ready (x : Ximalaya) (p : List Nat)
    (hs : x.state = State.DecryptHeader) (hp : p ≠ [])
    (hr : (x.data.read_until_offset p XMLY_SCRAMBLE_SIZE).2.2 = false) :
    writeLoopCnt x p
      = ({ x with data := (x.data.read_until_offset p XMLY_SCRAMBLE_SIZE).1 }, 0) := by
  rw [writeLoopCnt.eq_def, dif_neg hp]
  split
  · next hq => rw [hs] at hq; simp at hq
  · next hq =>
    split
    next d rest ready heq =>
      have hrest := read_not_ready_rest x.data p XMLY_SCRAMBLE_SIZE hr
      rw [heq] at hr hrest
      rw [if_neg (by simp only [Bool.not_eq_true]; exact hr)]
      rw [show rest = (d, (rest, ready)).2.1 from rfl, hrest, writeLoopCnt_nil, heq]

/-- The instrumented loop computes the same final state as the real
loop. -/
theorem writeLoopCnt_fst (x : Ximalaya) (p : List Nat) :
    (writeLoopCnt x p).1 = writeLoop x p := by
  by_cases hp : p = []
  · rw [hp, writeLoopCnt_nil, writeLoop_nil]
  · cases hs : x.state with
    | PassThrough => rw [writeLoopCnt_pass x p hs hp, writeLoop_pass x p hs hp]
    | DecryptHeader =>
      by_cases hr : (x.data.read_until_offset p XMLY_SCRAMBLE_SIZE).2.2 = true
      · rw [writeLoopCnt_header_ready x p hs hp hr,
          writeLoop_header_ready x p hs hp hr]
        by_cases hq : (x.data.read_until_offset p XMLY_SCRAMBLE_SIZE).2.1 = []
        · rw [hq, writeLoopCnt_nil, writeLoop_nil]
        · rw [writeLoopCnt_pass _ _ rfl hq, writeLoop_pass _ _ rfl hq]
      · rw [writeLoopCnt_header_not_ready x p hs hp (by simpa using hr),
          writeLoop_header_not_ready x p hs hp (by simpa using hr)]

/-- Transform count of a single write call from a reachable state: the
transform runs exactly when this call makes the buffered stream cross
the 1024-byte threshold. -/
theorem writeLoopCnt_snd_refState (key table inp p : List Nat) :
    (writeLoopCnt (refState key table inp) p).2
      = if inp.length < XMLY_SCRAMBLE_SIZE
          ∧ XMLY_SCRAMBLE_SIZE ≤ inp.length + p.length
        then 1 else 0 := by
  by_cases h : inp.length < XMLY_SCRAMBLE_SIZE
  · by_cases hp : p = []
    · rw [hp, writeLoopCnt_nil, if_neg (by simp)]
    · have hs : (refState key table inp).state = State.DecryptHeader := by
        simp [refState, if_pos h]
      have hdata : (refState key table inp).data
          = { buf_in := inp, buf_out := [], offset := 0 } := by
        simp [refState, if_pos h]
      by_cases hlt : p.length < XMLY_SCRAMBLE_SIZE - inp.length
      · have hr : ((refState key table inp).data.read_until_offset p
            XMLY_SCRAMBLE_SIZE).2.2 = false := by
          rw [hdata]
          simp [BaseDecryptorData.read_until_offset, hlt]
        rw [writeLoopCnt_header_not_ready _ _ hs hp hr, if_neg (by omega)]
      · have hr : ((refState key table inp).data.read_until_offset p
            XMLY_SCRAMBLE_SIZE).2.2 = true := by
          rw [hdata]
          simp [BaseDecryptorData.read_until_offset, hlt]
        rw [writeLoopCnt_header_ready _ _ hs hp hr,
          if_pos ⟨h, by omega⟩]
        have hz : (writeLoopCnt
            { do_header_decryption
                { refState key table inp with
                  data := ((refState key table inp).data.read_until_offset p
                    XMLY_SCRAMBLE_SIZE).1 } with
              state := State.PassThrough }
            ((refState key table inp).data.read_until_offset p
              XMLY_SCRAMBLE_SIZE).2.1).2 = 0 := by
          by_cases hq : ((refState key table inp).data.read_until_offset p
              XMLY_SCRAMBLE_SIZE).2.1 = []
          · rw [hq, writeLoopCnt_nil]
          · rw [writeLoopCnt_pass _ _ rfl hq]
        rw [hz]
  · have hs : (refState key table inp).state = State.PassThrough := by
      simp [refState, if_neg h]
    by_cases hp : p = []
    · rw [hp, writeLoopCnt_nil, if_neg (by omega)]
    · rw [writeLoopCnt_pass _ _ hs hp, if_neg (by omega)]

/-- Accumulated transform count over any chunk sequence starting from a
reachable state. -/
theorem writeManyCnt_refState (key table : List Nat) (cs : List (List Nat))
    (inp : List Nat) (c0 : Nat) :
    cs.foldl (fun acc c => ((writeLoopCnt acc.1 c).1, acc.2 + (writeLoopCnt acc.1 c).2))
        (refState key table inp, c0)
      = (refState key table (inp ++ cs.flatten),
         c0 + if inp.length < XMLY_SCRAMBLE_SIZE
            ∧ XMLY_SCRAMBLE_SIZE ≤ inp.length + cs.flatten.length
          then 1 else 0) := by
  induction cs generalizing inp c0 with
  | nil =>
    simp only [List.foldl_nil, List.flatten_nil, List.append_nil,
      List.length_nil, Nat.add_zero]
    rw [if_neg (by omega)]
    rfl
  | cons c cs ih =>
    simp only [List.foldl_cons]
    rw [writeLoopCnt_fst, writeLoop_refState, writeLoopCnt_snd_refState, ih]
    simp only [List.flatten_cons, List.append_assoc, List.length_append]
    congr 1
    split_ifs <;> omega

/-- C5: one-shot, one-way phase: over any sequence of write calls on a
fresh instance the descrambling transform runs exactly once as soon as
the stream reaches 1024 bytes (zero times below that); the instrumented
loop agrees with the real one; and once the phase is `PassThrough` a
write call keeps it there and passes its chunk through untransformed. -/
theorem transform_exactly_once (key table : List Nat) (cs : List (List Nat))
    (x : Ximalaya) (p : List Nat) (hx : x.state = State.PassThrough) :
    (writeManyCnt (Ximalaya.new key table) cs).2
        = (if XMLY_SCRAMBLE_SIZE ≤ cs.flatten.length then 1 else 0) ∧
    (writeManyCnt (Ximalaya.new key table) cs).1
        = writeMany (Ximalaya.new key table) cs ∧
    (writeLoop x p).state = State.PassThrough ∧
    (writeLoop x p).data.buf_out = x.data.buf_out ++ p ∧
    (writeLoop x p).data.buf_in = x.data.buf_in := by
  refine ⟨?_, ?_, ?_, ?_, ?_⟩
  · unfold writeManyCnt
    rw [new_eq_refState, writeManyCnt_refState]
    simp [XMLY_SCRAMBLE_SIZE]
  · rw [writeMany_new]
    unfold writeManyCnt
    rw [new_eq_refState, writeManyCnt_refState]
    simp
  · by_cases hp : p = []
    · rw [hp, writeLoop_nil]
      exact hx
    · rw [writeLoop_pass x p hx hp]
      exact hx
  · by_cases hp : p = []
    · rw [hp, writeLoop_nil]
      simp
    · rw [writeLoop_pass x p hx hp]
  · by_cases hp : p = []
    · rw [hp, writeLoop_nil]
    · rw [writeLoop_pass x p hx hp]

/-- A concrete pass-through decryptor state used by witnesses. -/
def witnessPassState : Ximalaya :=
{ data := { buf_in := [], buf_out := [], offset := 1024 },
  state := State.PassThrough, key := [1, 2, 3, 4],
  scramble_table := List.range 1024 }

/-- Witness for C5: two full 1024-byte all-zero chunks yield transform
count one, and a pass-through state passes a further 1024-byte block
through verbatim. -/
theorem transform_exactly_once_witness :
    witnessPassState.state = State.PassThrough ∧
    (writeManyCnt (Ximalaya.new [1, 2, 3, 4] (List.range 1024))
        [List.replicate 1024 0, List.replicate 1024 0]).2
      = (if XMLY_SCRAMBLE_SIZE
            ≤ ([List.replicate 1024 0, List.replicate 1024 0]
                : List (List Nat)).flatten.length
         then 1 else 0) ∧
    (writeLoop witnessPassState (List.replicate 1024 0)).data.buf_out
      = witnessPassState.data.buf_out ++ List.replicate 1024 0 :=
  ⟨rfl,
    (transform_exactly_once [1, 2, 3, 4] (List.range 1024)
      [List.replicate 1024 0, List.replicate 1024 0]
      witnessPassState (List.replicate 1024 0) rfl).1,
    (transform_exactly_once [1, 2, 3, 4] (List.range 1024)
      [List.replicate 1024 0, List.replicate 1024 0]
      witnessPassState (List.replicate 1024 0) rfl).2.2.2.1⟩

set_option maxRecDepth 20000 in
/-- C9: end-to-end scenario: with key [1,2,3,4] and the identity
permutation, feeding 1024 zero bytes followed by 976 bytes of 0xFF in a
single write yields an output starting with the key repeated (XOR of
zeros with the cyclic key) and ending with the 976 pass-through 0xFF
bytes. -/
theorem end_to_end_scenario :
    ((writeMany (Ximalaya.new [1, 2, 3, 4] (List.range 1024))
        [List.replicate 1024 0 ++ List.replicate 976 255]).data.buf_out.take 4
      = [1, 2, 3, 4]) ∧
    (((writeMany (Ximalaya.new [1, 2, 3, 4] (List.range 1024))
        [List.replicate 1024 0 ++ List.replicate 976 255]).data.buf_out.drop 4).take 4
      = [1, 2, 3, 4]) ∧
    ((writeMany (Ximalaya.new [1, 2, 3, 4] (List.range 1024))
        [List.replicate 1024 0 ++ List.replicate 976 255]).data.buf_out.drop 1024
      = List.replicate 976 255) := by
  have hflat : ([List.replicate 1024 0 ++ List.replicate 976 255]
      : List (List Nat)).flatten
      = List.replicate 1024 (0 : Nat) ++ List.replicate 976 255 := by
    simp
  have hrep : (List.replicate 1024 (0 : Nat)).length = XMLY_SCRAMBLE_SIZE := by
    simp [XMLY_SCRAMBLE_SIZE]
  have hnlt : ¬ (List.replicate 1024 (0 : Nat)
      ++ List.replicate 976 255).length < XMLY_SCRAMBLE_SIZE := by
    simp [XMLY_SCRAMBLE_SIZE]
  rw [writeMany_new, hflat]
  simp only [refState, if_neg hnlt]
  rw [List.take_left' hrep, List.drop_left' hrep]
  have hb1 : 4 ≤ (descrambledHeader [1, 2, 3, 4] (List.range 1024)
      (List.replicate 1024 0)).length := by
    rw [descrambledHeader_length]
    decide
  have hb2 : 4 ≤ ((descrambledHeader [1, 2, 3, 4] (List.range 1024)
      (List.replicate 1024 0)).drop 4).length := by
    rw [List.length_drop, descrambledHeader_length]
    decide
  have hlen1024 : (descrambledHeader [1, 2, 3, 4] (List.range 1024)
      (List.replicate 1024 0)).length = 1024 := by
    rw [descrambledHeader_length]
    rfl
  refine ⟨?_, ?_, ?_⟩
  · rw [List.take_append_of_le_length hb1]
    unfold descrambledHeader
    rw [← List.map_take]
    have ht : List.take 4 (List.range XMLY_SCRAMBLE_SIZE) = [0, 1, 2, 3] := by
      decide
    rw [ht]
    decide
  · rw [List.drop_append_of_le_length hb1, List.take_append_of_le_length hb2]
    unfold descrambledHeader
    rw [← List.map_drop, ← List.map_take]
    have ht : List.take 4 (List.drop 4 (List.range XMLY_SCRAMBLE_SIZE))
        = [4, 5, 6, 7] := by
      decide
    rw [ht]
    decide
  · rw [List.drop_left' hlen1024]

/-- Fallible rendering of the descrambling loop of
`do_header_decryption`: each slice access that Rust performs with a
panicking index operation becomes an Option lookup, so a `none` result
models an out-of-bounds panic. -/
def do_header_decryption_checked (x : Ximalaya) : Option (List Nat) :=
(List.range XMLY_SCRAMBLE_SIZE).mapM fun i =>
  match x.scramble_table[i]? with
  | none => none
  | some t =>
    match x.data.buf_in[t]? with
    | none => none
    | some b =>
      match x.key[i % x.key.length]? with
      | none => none
      | some k => some (b ^^^ k)

theorem mapM_eq_map_of_forall (f : Nat → Option Nat) (g : Nat → Nat)
    (l : List Nat) (h : ∀ a ∈ l, f a = some (g a)) :
    l.mapM f = some (l.map g) := by
  induction l with
  | nil => rfl
  | cons a t ih =>
    rw [List.mapM_cons, h a (List.mem_cons_self a t),
      ih (fun b hb => h b (List.mem_cons_of_mem a hb))]
    rfl

/-- C10: with a 1024-entry table whose entries are all below 1024, a
buffered header of at least 1024 bytes and a well-formed key, every
index operation of the descrambling transform is in bounds: the checked
transform never returns `none` and agrees with the total one. -/
theorem header_indices_in_bounds (x : Ximalaya)
    (htab : x.scramble_table.length = XMLY_SCRAMBLE_SIZE)
    (hent : ∀ e ∈ x.scramble_table, e < XMLY_SCRAMBLE_SIZE)
    (hbuf : XMLY_SCRAMBLE_SIZE ≤ x.data.buf_in.length)
    (hkey : x.key.length = X2M_CONTENT_KEY_SIZE
      ∨ x.key.length = X3M_CONTENT_KEY_SIZE) :
    do_header_decryption_checked x
      = some (descrambledHeader x.key x.scramble_table x.data.buf_in) := by
  unfold do_header_decryption_checked descrambledHeader
  apply mapM_eq_map_of_forall
  intro i hi
  have hi2 : i < XMLY_SCRAMBLE_SIZE := List.mem_range.mp hi
  have h1 : x.scramble_table[i]? = some (x.scramble_table.getD i 0) := by
    rw [List.getD_eq_getElem _ _ (htab ▸ hi2)]
    exact List.getElem?_eq_getElem _
  have hmem : x.scramble_table.getD i 0 ∈ x.scramble_table := by
    rw [List.getD_eq_getElem _ _ (htab ▸ hi2)]
    exact List.getElem_mem _
  have h2 : x.data.buf_in[x.scramble_table.getD i 0]?
      = some (x.data.buf_in.getD (x.scramble_table.getD i 0) 0) := by
    have hlt : x.scramble_table.getD i 0 < x.data.buf_in.length :=
      lt_of_lt_of_le (hent _ hmem) hbuf
    rw [List.getD_eq_getElem _ _ hlt]
    exact List.getElem?_eq_getElem _
  have hkpos : 0 < x.key.length := by
    rcases hkey with h | h <;> rw [h] <;> decide
  have h3 : x.key[i % x.key.length]? = some (x.key.getD (i % x.key.length) 0) := by
    have hlt : i % x.key.length < x.key.length := Nat.mod_lt _ hkpos
    rw [List.getD_eq_getElem _ _ hlt]
    exact List.getElem?_eq_getElem _
  simp only [h1, h2, h3]
  rfl

set_option maxRecDepth 20000 in
/-- Witness for C10 at the concrete decryptor state of the C1 witness. -/
theorem header_indices_in_bounds_witness :
    witnessHeaderState.scramble_table.length = XMLY_SCRAMBLE_SIZE ∧
    (∀ e ∈ witnessHeaderState.scramble_table, e < XMLY_SCRAMBLE_SIZE) ∧
    XMLY_SCRAMBLE_SIZE ≤ witnessHeaderState.data.buf_in.length ∧
    do_header_decryption_checked witnessHeaderState
      = some (descrambledHeader witnessHeaderState.key
          witnessHeaderState.scramble_table witnessHeaderState.data.buf_in) :=
  ⟨by decide, fun e he => List.mem_range.mp he, by decide,
    header_indices_in_bounds witnessHeaderState (by decide)
      (fun e he => List.mem_range.mp he) (by decide) (Or.inl (by decide))⟩

end Parakeet
